import Mathlib

/-!
Verification of the fms_parse view/split/JSON parsing core.

This file is a shallow embedding, in Lean 4, of the C++ sources of the
fms_parse repository:

* `fms_view.h`     - the non-owning `view<T>` (pointer + signed length),
* `fms_char_view.h` - `char_view<T>` with `eat`, `ws_trim`, `trim_ws` and
  the negative-length error-sentinel convention,
* `fms_parse_split.h` (and its sibling iterations of the same header found
  in the repository) - the nested-delimiter `split` scan and the
  `splitable` iterator,
* `fms_json.h` / `fms_parse_json.h` - `eat_chars`/`is_null`/`is_true`/
  `is_false`, `parse_string` and `parse_number`.

Modelling conventions, fixed once and used throughout:

* A buffer element (`T`, `char`, `wchar_t`) is modelled as `Int`
  (its character code); the whole underlying buffer is a `List Int` named
  `B`.  A `T* buf` pointer into the buffer is modelled as a `Nat` offset
  from the start of `B`, so pointer identity and pointer arithmetic are
  preserved.
* `view<T>` is `View`: an offset together with the signed length
  (`long len` modelled as `Int`).  `len < 0` is the error sentinel.
* A memory read `buf[i]` is `readB B (off + i)`; reads outside `B`
  (undefined behaviour in C++) return the junk value `0`.
* `std::clamp(n, lo, hi)` is `clampI n lo hi`, written exactly as the
  library conditional `n < lo ? lo : (hi < n ? hi : n)`, which is total
  (and deterministic) even in the `lo > hi` case that is undefined in C++.
* C++ loops become structural recursions; where the loop progress metric
  is not a structural argument the recursion takes an explicit counter
  that is provably at least the number of iterations the C++ loop makes.
-/

namespace FmsParse

/-- `std::clamp(n, lo, hi)`, as the conditional
`n < lo ? lo : (hi < n ? hi : n)` used by the standard library. -/
def clampI (n lo hi : Int) : Int :=
  if n < lo then lo else if hi < n then hi else n

/-- `fms::view<T>` from `fms_view.h`: a non-owning window `{T* buf; long len;}`.
`off` is the pointer `buf` as an offset into the ambient buffer, `len` the
signed length; `len < 0` is the error state. -/
structure View where
  off : Nat
  len : Int
deriving DecidableEq, Repr

/-- A memory read at absolute offset `i`; out-of-range reads (C++ undefined
behaviour) produce the junk value `0`. -/
def readB (B : List Int) (i : Nat) : Int := B.getD i 0

/-- The list of elements a (non-error) view presents: `buf[0..len)`. -/
def window (B : List Int) (v : View) : List Int :=
  (B.drop v.off).take v.len.toNat

/-- `view::operator bool`: `len > 0`. -/
def View.truthy (v : View) : Prop := 0 < v.len

instance (v : View) : Decidable v.truthy := by unfold View.truthy; infer_instance

/-- `view::drop(long n)` from `fms_view.h` (lines 128-141):
`n = std::clamp(n, -len, len); if (n >= 0) { buf += n; len -= n; } else { len += n; }`. -/
def View.drop (v : View) (n : Int) : View :=
  let m := clampI n (-v.len) v.len
  if 0 ≤ m then { off := v.off + m.toNat, len := v.len - m }
  else { off := v.off, len := v.len + m }

/-- `view::take(long n)` from `fms_view.h` (lines 144-157):
`n = std::clamp(n, -len, len); if (n >= 0) { len = n; } else { buf += len + n; len = -n; }`. -/
def View.take (v : View) (n : Int) : View :=
  let m := clampI n (-v.len) v.len
  if 0 ≤ m then { off := v.off, len := m }
  else { off := v.off + (v.len + m).toNat, len := -m }

/-- `view::operator++`: `if (len > 0) { ++buf; --len; }`. -/
def View.succ (v : View) : View :=
  if 0 < v.len then { off := v.off + 1, len := v.len - 1 } else v

/-- `view::front() const` from `fms_view.h` (lines 110-113):
`return len ? buf[0] : (T)-1;` — the buffer is dereferenced only when
`len` is nonzero. -/
def front (B : List Int) (v : View) : Int :=
  if v.len ≠ 0 then readB B v.off else -1

/-- `view::back() const` from `fms_view.h` (lines 118-121):
`return len ? buf[len - 1] : (T)-1;`. -/
def back (B : List Int) (v : View) : Int :=
  if v.len ≠ 0 then readB B (v.off + (v.len - 1).toNat) else -1

/-- `fms::abs` from `fms_char_view.h`: `x < 0 ? -x : x`. -/
def intAbs (x : Int) : Int := if x < 0 then -x else x

/-- `char_view::error()`: `char_view(buf, -abs(len))`. -/
def View.error (v : View) : View := { v with len := -(intAbs v.len) }

/-- `char_view::error_view()`: `char_view(buf, abs(len))`. -/
def View.errorView (v : View) : View := { v with len := intAbs v.len }

/-- `char_view::is_error()`: `len < 0`. -/
def View.isError (v : View) : Prop := v.len < 0

instance (v : View) : Decidable v.isError := by unfold View.isError; infer_instance

/-- The containment a windowing operation must respect: the result is a
sub-window of `v` (never extends past either end) and is not an error. -/
def subwindow (u v : View) : Prop :=
  v.off ≤ u.off ∧ u.off + u.len.toNat ≤ v.off + v.len.toNat ∧ 0 ≤ u.len

instance (u v : View) : Decidable (subwindow u v) := by
  unfold subwindow; infer_instance

/-- `char_view::eat(T t)` from `fms_char_view.h` (lines 131-141):
`if (!len or *buf != t) { *this = error(); } else { drop(1); }`. -/
def eatChar (B : List Int) (v : View) (t : Int) : View :=
  if v.len = 0 ∨ readB B v.off ≠ t then v.error else v.drop 1

/-- The loop of `char_view::eat(const T* s, long n)` from `fms_char_view.h`
(line 151): `while (len and n-- and !is_error()) { eat(*s++); }` — the
remaining characters of the literal are the list argument; the loop stops
when the view is empty (`len` is zero), in the error state, or the literal
is exhausted. -/
def eatList (B : List Int) : View → List Int → View
  | v, [] => v
  | v, t :: ts =>
    if v.len = 0 then v
    else if v.len < 0 then v
    else eatList B (eatChar B v t) ts

/-- `char_view::eat(const T* s, long n)` from `fms_char_view.h`
(lines 143-156) in its auto-length form (`n = 0`, i.e. eat until the null
terminator of `s`): the guard `if (n > len) return *this = error();` is
`0 > len` and the loop then consumes the characters of `s`. -/
def eatStr (B : List Int) (v : View) (s : List Int) : View :=
  if (0:Int) > v.len then v.error else eatList B v s

/-- The number of leading characters of the literal that
`char_view::eat(const T*, long)` successfully consumes before failing
(or all of them on success). -/
def matchedLen (B : List Int) : View → List Int → Nat
  | _, [] => 0
  | v, t :: ts =>
    if v.len ≤ 0 then 0
    else if readB B v.off = t then matchedLen B (v.drop 1) ts + 1
    else 0

/-- The JSON-compatible whitespace set: `fms::is_space` from
`fms_char_view.h` — space, tab, newline, carriage return, form feed,
vertical tab (the same set as C `isspace` in the default locale). -/
def isSpaceC (c : Int) : Prop :=
  c = 32 ∨ c = 9 ∨ c = 10 ∨ c = 13 ∨ c = 12 ∨ c = 11

instance (c : Int) : Decidable (isSpaceC c) := by unfold isSpaceC; infer_instance

/-- `fms::json::eat_chars` from `fms_json.h` (lines 46-59):
`while (v and n--) { if (*v++ != *s++) return false; }`
`if (v and !::isspace(*v)) return false; return true;`
The list argument carries the `n` characters of the literal; the result is
the advanced view together with the returned boolean. -/
def eat_chars (B : List Int) : View → List Int → View × Bool
  | v, [] => (v, !(decide (0 < v.len ∧ ¬ isSpaceC (readB B v.off))))
  | v, t :: ts =>
    if 0 < v.len then
      let h := readB B v.off
      let v1 := v.succ
      if h ≠ t then (v1, false) else eat_chars B v1 ts
    else (v, true)

/-- `fms::json::is_null` (fms_json.h lines 61-65): `eat_chars(v, "null", 4)`. -/
def is_null (B : List Int) (v : View) : View × Bool :=
  eat_chars B v [110, 117, 108, 108]

/-- `fms::json::is_true`: `eat_chars(v, "true", 4)`. -/
def is_true (B : List Int) (v : View) : View × Bool :=
  eat_chars B v [116, 114, 117, 101]

/-- `fms::json::is_false`: `eat_chars(v, "false", 5)`. -/
def is_false (B : List Int) (v : View) : View × Bool :=
  eat_chars B v [102, 97, 108, 115, 101]

/-- The closing-quote scan of `fms::json::parse_string` from
`fms_parse_json.h` (lines 95-105):
`while (v_ and *v_ != '"') { if (*v_ == '\\') { ++v_; if (v_ and *v_ == '"') ++v_; } else ++v_; }`
rendered as a recursion over the remaining characters; the result is the
number of characters scanned before the closing quote (`some m` with the
quote at index `m`), or `none` when the input is exhausted without one.
`34` is `'"'` and `92` is backslash. -/
def scanStr : List Int → Option Nat
  | [] => none
  | [h] => if h = 34 then some 0 else none
  | h :: z :: t2 =>
    if h = 34 then some 0
    else if h = 92 then
      (if z = 34 then (scanStr t2).map (· + 2) else (scanStr (z :: t2)).map (· + 1))
    else (scanStr (z :: t2)).map (· + 1)

/-- `fms::json::parse_string` from `fms_parse_json.h` (lines 90-113): scan
for the closing quote; on success return the scanned prefix verbatim as the
content (`String(v_.buf, v_.len)` after `swap` and `take`) and advance `v`
to the closing quote; on failure return the empty content at the end of
the view and leave `v` unchanged.  The first component is the content
view, the second the updated `v`. -/
def parse_string (B : List Int) (v : View) : View × View :=
  match scanStr (window B v) with
  | some m => (v.take (m : Int), ⟨v.off + m, v.len - m⟩)
  | none => (⟨v.off + (window B v).length, 0⟩, v)

/-- `char_view::ws_trim` from `fms_char_view.h` (lines 159-166):
`while (len and is_space(front())) { drop(1); }` — one leading element is
dropped per iteration, so for every non-error view `len.toNat` iterations
suffice; the counter argument of `wsTrimGo` supplies exactly that bound
(for `len < 0` the C++ loop is undefined behaviour: it reads `buf[0]` and
`drop(1)` feeds `std::clamp` a reversed range). -/
def wsTrimGo (B : List Int) : Nat → View → View
  | 0, v => v
  | n+1, v =>
    if v.len ≠ 0 ∧ isSpaceC (readB B v.off) then wsTrimGo B n (v.drop 1) else v

def wsTrim (B : List Int) (v : View) : View := wsTrimGo B v.len.toNat v

/-- `char_view::trim_ws` from `fms_char_view.h` (lines 168-175):
`while (len and is_space(back())) { drop(-1); }`, with the same
iteration-count argument as `wsTrim`. -/
def trimWsGo (B : List Int) : Nat → View → View
  | 0, v => v
  | n+1, v =>
    if v.len ≠ 0 ∧ isSpaceC (back B v) then trimWsGo B n (v.drop (-1)) else v

def trimWs (B : List Int) (v : View) : View := trimWsGo B v.len.toNat v

/-- `::isdigit`: the base-10 digits consumed by the `integer` and
`fraction` lambdas of `parse_number`; the digit prefix the loop
`while (v and ::isdigit(*v))` consumes. -/
def digitsPre (B : List Int) (v : View) : List Int :=
  (window B v).takeWhile (fun d => decide (48 ≤ d ∧ d ≤ 57))

/-- The value of a C++ `double` expression produced by the number grammar,
modelled exactly: the pair `(m, s)` denotes the real number `m / 10^s`.
Every operation `parse_number` performs on its `double`s (multiply or
divide by 10, add, scale by the sign) is exact decimal-scaled arithmetic,
so this representation models the ideal real-number semantics of the code's
arithmetic; it deliberately ignores IEEE-754 rounding, which is orders of
magnitude below the factor-of-10 discrepancies at issue. -/
abbrev D10 := Int × Nat

/-- The rational value denoted by a `D10`. -/
def d10val (x : D10) : ℚ := (x.1 : ℚ) / 10 ^ x.2

def d10mul10 (x : D10) : D10 := (x.1 * 10, x.2)

def d10div10 (x : D10) : D10 := (x.1, x.2 + 1)

def d10add (x y : D10) : D10 := (x.1 * 10 ^ y.2 + y.1 * 10 ^ x.2, x.2 + y.2)

def d10smul (c : Int) (x : D10) : D10 := (c * x.1, x.2)

/-- Equality of the denoted real values: `a/10^s = b/10^t` by
cross-multiplication. -/
def d10eqv (x y : D10) : Prop := x.1 * 10 ^ y.2 = y.1 * 10 ^ x.2

instance (x y : D10) : Decidable (d10eqv x y) := by unfold d10eqv; infer_instance

/-- The `integer` lambda of `parse_number` (fms_parse_json.h lines
132-141): `while (v and ::isdigit(*v)) { x = 10 * x + (*v - '0'); ++v; }`
folded over the digit prefix. -/
def integerV : D10 → List Int → D10
  | x, [] => x
  | x, d :: ds => integerV (d10add (d10mul10 x) (d - 48, 0)) ds

/-- The same `integer` lambda where the result feeds the exponent counter
`e` (an integer-valued `double`). -/
def intOfDigits : Int → List Int → Int
  | x, [] => x
  | x, d :: ds => intOfDigits (10 * x + (d - 48)) ds

/-- The `fraction` lambda of `parse_number` (fms_parse_json.h lines
121-131): `x += (*v - '0') * e; e /= 10;` starting from `e = 0.1`; the
`Nat` argument is the current scale of `e` (`e = 10^-k`). -/
def fractionV : D10 → Nat → List Int → D10
  | x, _, [] => x
  | x, k, d :: ds => fractionV (d10add x (d - 48, k)) (k + 1) ds

/-- `while (e-- > 0) { num *= 10; }`: the body runs `e.toNat` times. -/
def mulLoopGo : Nat → Option D10 → Option D10
  | 0, n => n
  | k+1, n => mulLoopGo k (n.map d10mul10)

/-- `while (e++ < 0) { num /= 10; }`: the body runs once per negative
value the counter passes through. -/
def divLoopGo : Nat → Option D10 → Option D10
  | 0, n => n
  | k+1, n => divLoopGo k (n.map d10div10)

/-- `fms::json::parse_number` from `fms_parse_json.h` (lines 116-186).
`none` is the `NaN` the code uses for failure (`x` starts out `NaN` and
`NaN` propagates through the arithmetic; the final line returns `NaN` when
a non-whitespace character remains).  The control flow is transliterated
line by line:
* `v.ws_trim();`
* optional leading `-` (`sgn`), consumed with `eat`;
* a leading `0` branch: `v.drop(1); x = sgn * 0; if (v.eat('.')) x = fraction(v);`
  — note that `eat('.')` marks `v` as an error view when the next
  character is not `.`, and its truthiness (`len > 0`) also fails for an
  exhausted view;
* otherwise a nonzero-digit branch: `x = integer(v);` then optional
  `.` + `x += fraction(v);`
* exponent marker `e`/`E` with optional sign, then `e *= integer(v);`
* `double num = sgn * x;` followed by the two scaling loops
  `while (e-- > 0) num *= 10;` and `while (e++ < 0) num /= 10;` — the
  first loop leaves `e = (if 0 < e then 0 else e) - 1` because the
  post-decrement fires once more on exit;
* `return v and !is_space(*v) ? NaN : num;`. -/
def parse_number (B : List Int) (v : View) : Option D10 × View :=
  let v := wsTrim B v
  let sgn : Int := if 0 < v.len ∧ readB B v.off = 45 then -1 else 1
  let v := if 0 < v.len ∧ readB B v.off = 45 then eatChar B v 45 else v
  let p : Option D10 × View :=
    if 0 < v.len ∧ readB B v.off = 48 then
      let v := v.drop 1
      let v := eatChar B v 46
      if 0 < v.len then
        let ds := digitsPre B v
        (some (fractionV (0, 0) 1 ds), v.drop (ds.length : Int))
      else (some (sgn * 0, 0), v)
    else if 0 < v.len ∧ 49 ≤ readB B v.off ∧ readB B v.off ≤ 57 then
      let ds := digitsPre B v
      let x := integerV (0, 0) ds
      let v := v.drop (ds.length : Int)
      if 0 < v.len ∧ readB B v.off = 46 then
        let v := v.drop 1
        let ds2 := digitsPre B v
        (some (d10add x (fractionV (0, 0) 1 ds2)), v.drop (ds2.length : Int))
      else (some x, v)
    else (none, v)
  let x := p.1
  let v := p.2
  let q : Int × View :=
    if 0 < v.len ∧ (readB B v.off = 101 ∨ readB B v.off = 69) then
      let v := v.drop 1
      if 0 < v.len ∧ readB B v.off = 43 then (1, v.drop 1)
      else if 0 < v.len ∧ readB B v.off = 45 then (-1, v.drop 1)
      else (1, v)
    else (1, v)
  let esgn := q.1
  let v := q.2
  let ds := digitsPre B v
  let e : Int := esgn * intOfDigits 0 ds
  let v := v.drop (ds.length : Int)
  let num : Option D10 := x.map (d10smul sgn)
  let num := mulLoopGo e.toNat num
  let e1 : Int := (if 0 < e then 0 else e) - 1
  let num := divLoopGo (-e1).toNat num
  if 0 < v.len ∧ ¬ isSpaceC (readB B v.off) then (none, v) else (num, v)

/-- The control state of the `split` scan of `fms_parse_split.h`
(lines 14-49): `outer` is the outer loop
`while (v_ and *v_ and *v_ != c)`, `inner lv` is the nested-tracking loop
`while (++v_ and *v_ and level)` carrying `int level`, and `esc lv` is the
position right after the body executed `++v_` for an escape character —
the next character is consumed by the loop-head `++v_` without any check. -/
inductive ScanSt where
  | outer : ScanSt
  | inner (level : Int) : ScanSt
  | esc (level : Int) : ScanSt
deriving DecidableEq, Repr

/-- The scanning loops of `split` from `fms_parse_split.h` (lines 18-38),
as a single-pass automaton over the remaining characters (each step
consumes the head, exactly as every advance in the code is one `++v_`).
The result is the rest of the input at the stop position together with the
success flag (`false` is the unbalanced-delimiters case `level != 0`, in
which the code sets `v_.len = -1`).

Correspondence with the code:
* `outer, h::t` — the loop head stops at a null character or the
  delimiter; `*v_ == l` enters the nested loop with `level = 1` (the
  nested loop's first `++v_` consumes the `l`); otherwise `++v_`.
* `inner lv, h::t` — the loop head `++v_ and *v_ and level` has already
  consumed the previous character; exit happens when `*v_ == 0` or
  `level == 0`, and the two exits are interchangeable because the error
  flag depends only on `level`:  on a no-error exit the outer `++v_`
  then consumes the exit character `h` with no check and the outer loop
  resumes at `t`; on `*v_ == 0` with `level != 0` the scan fails at `h`.
  Inside the body `r` is checked before `l` before `e`.
* `esc lv` — the character after an escape is consumed unchecked.
* exhausted input exits the nested loop with the current `level`,
  failing exactly when it is nonzero. -/
def scan (c l r e : Int) : ScanSt → List Int → List Int × Bool
  | .outer, [] => ([], true)
  | .outer, h :: t =>
    if h = 0 ∨ h = c then (h :: t, true)
    else if h = l then scan c l r e (.inner 1) t
    else scan c l r e .outer t
  | .inner lv, [] => ([], decide (lv = 0))
  | .inner lv, h :: t =>
    if lv = 0 then scan c l r e .outer t
    else if h = 0 then (h :: t, false)
    else if h = r then scan c l r e (.inner (lv - 1)) t
    else if h = l then scan c l r e (.inner (lv + 1)) t
    else if h = e then scan c l r e (.esc lv) t
    else scan c l r e (.inner lv) t
  | .esc lv, [] => ([], decide (lv = 0))
  | .esc lv, _ :: t => scan c l r e (.inner lv) t

/-- `split(char_view<T> v, T c, T l, T r, T e)` from `fms_parse_split.h`
(lines 14-49), producing both outputs of the computation: the field and
the advanced source view.  After the scan, `n = v_.buf - v.buf` is the
number of characters consumed (`k`), the two `std::swap`s exchange the
views, `v_.take(n)` forms the field from the original start and
`v.drop(1)` drops the delimiter from the advanced view; on a scan error
the swap block is skipped, the returned field is the error view
(`len = -1`, `buf` at the failure position) and the source view is left
untouched.  In `fms_parse_split.h` the source view is a by-value copy, so
the caller only receives the field (`.1`); in the by-reference iterations
of the same header in the repository (`src/unnamed/part_000` line 9,
`src/unnamed/part_002` line 266) the caller's view receives `.2`. -/
def splitV (B : List Int) (v : View) (c l r e : Int) : View × View :=
  let w := window B v
  let s := scan c l r e .outer w
  let k : Nat := w.length - s.1.length
  if s.2 then (v.take (k : Int), View.drop ⟨v.off + k, v.len - k⟩ 1)
  else (⟨v.off + k, -1⟩, v)

/-- The state of the `splitable` iterator (`fms_parse_split.h` lines
52-118, `src/unnamed/part_000` lines 47-199): the current field `v` and
the cursor `v_`. -/
structure SplitSt where
  f : View
  cur : View
deriving DecidableEq, Repr

/-- `splitable::incr` with the by-reference `split` of
`src/unnamed/part_000` (the variant in which the cursor advances):
`if (!std::isspace(l)) v_.ws_trim(); v = split(v_, c, l, r, e);
if (!std::isspace(r)) v.trim_ws();`. -/
def incrBR (B : List Int) (c l r e : Int) (cur : View) : SplitSt :=
  let cur1 := if ¬ isSpaceC l then wsTrim B cur else cur
  let p := splitV B cur1 c l r e
  ⟨if ¬ isSpaceC r then trimWs B p.1 else p.1, p.2⟩

/-- `splitable::operator++` (by-reference `split`): `if (v) { incr(); }`. -/
def stepBR (B : List Int) (c l r e : Int) (s : SplitSt) : SplitSt :=
  if 0 < s.f.len then incrBR B c l r e s.cur else s

/-- The `splitable` constructor (by-reference `split`): store the source
view as the cursor and run `incr()` once. -/
def initBR (B : List Int) (v : View) (c l r e : Int) : SplitSt :=
  incrBR B c l r e v

/-- The sequence of fields the iterator yields: the current field while it
is truthy, advancing with `operator++`; the counter bounds the number of
steps inspected (the termination theorem shows `len + 1` always suffices
because the terminal state is a fixed point of `stepBR`). -/
def fieldsBR (B : List Int) (c l r e : Int) : Nat → SplitSt → List View
  | 0, _ => []
  | n+1, s =>
    if 0 < s.f.len then s.f :: fieldsBR B c l r e n (stepBR B c l r e s) else []

/-- `splitable::incr` exactly as written in `fms_parse_split.h` (lines
56-65): there `split` takes `char_view<T> v` **by value**, so of the call
`v = split<T>(v_, c, l, r, e)` only the returned field reaches the
iterator; the cursor `v_` keeps only the `ws_trim` mutation. -/
def incrBV (B : List Int) (c l r e : Int) (cur : View) : SplitSt :=
  let cur1 := if ¬ isSpaceC l then wsTrim B cur else cur
  let p := splitV B cur1 c l r e
  ⟨if ¬ isSpaceC r then trimWs B p.1 else p.1, cur1⟩

/-- `splitable::operator++` of `fms_parse_split.h` (lines 103-110) with
that file's by-value `split`. -/
def stepBV (B : List Int) (c l r e : Int) (s : SplitSt) : SplitSt :=
  if 0 < s.f.len then incrBV B c l r e s.cur else s

/-- The `splitable` constructor of `fms_parse_split.h` with that file's
by-value `split`. -/
def initBV (B : List Int) (v : View) (c l r e : Int) : SplitSt :=
  incrBV B c l r e v

/-- Repeated application of the raw `split` until the cursor is empty,
collecting every field (including empty ones) and whether every step
succeeded; the fuel argument bounds the number of steps and `len` of the
start view always suffices because each step strictly shrinks the
cursor. -/
def splitRun (B : List Int) (c l r e : Int) : Nat → View → List View × Bool
  | 0, _ => ([], true)
  | fuel+1, v =>
    if v.len ≤ 0 then ([], true)
    else if (splitV B v c l r e).1.len < 0 then ([], false)
    else ((splitV B v c l r e).1 :: (splitRun B c l r e fuel (splitV B v c l r e).2).1,
          (splitRun B c l r e fuel (splitV B v c l r e).2).2)

/-- Concatenation of fields with the delimiter reinserted between them —
the rejoin operation named by the split/rejoin invariant. -/
def joinWith (sep : List Int) : List (List Int) → List Int
  | [] => []
  | [x] => x
  | x :: y :: ys => x ++ sep ++ joinWith sep (y :: ys)

/-- Closed form of `View.take` for non-error views: out-of-range `n` clamps
to the whole view, `n ≥ 0` keeps a prefix, `n < 0` a suffix. -/
theorem View.take_eq (v : View) (n : Int) (h : 0 ≤ v.len) :
    v.take n =
      if n < -v.len ∨ v.len < n then ⟨v.off, v.len⟩
      else if 0 ≤ n then ⟨v.off, n⟩
      else ⟨v.off + (v.len + n).toNat, -n⟩ := by
  unfold View.take clampI
  split_ifs <;> simp_all [View.mk.injEq] <;> omega

/-- Closed form of `View.drop` for non-error views. -/
theorem View.drop_eq (v : View) (n : Int) (h : 0 ≤ v.len) :
    v.drop n =
      if 0 ≤ n then
        (if v.len < n then ⟨v.off + v.len.toNat, 0⟩ else ⟨v.off + n.toNat, v.len - n⟩)
      else if n < -v.len then ⟨v.off, 0⟩ else ⟨v.off, v.len + n⟩ := by
  unfold View.drop clampI
  split_ifs <;> simp_all [View.mk.injEq] <;> omega

theorem window_take_nonneg (B : List Int) (v : View) (n : Int)
    (h : 0 ≤ v.len) (hn : 0 ≤ n) :
    window B (v.take n) = (window B v).take n.toNat := by
  rw [View.take_eq v n h]
  by_cases hc : v.len < n
  · rw [if_pos (Or.inr hc)]
    simp only [window, List.take_take]
    congr 1
    omega
  · rw [if_neg (by omega), if_pos hn]
    simp only [window, List.take_take]
    congr 1
    omega

theorem window_drop_nonneg (B : List Int) (v : View) (n : Int)
    (h : 0 ≤ v.len) (hn : 0 ≤ n) :
    window B (v.drop n) = (window B v).drop n.toNat := by
  rw [View.drop_eq v n h, if_pos hn]
  by_cases hc : v.len < n
  · rw [if_pos hc]
    simp only [window, List.drop_take]
    have h2 : v.len.toNat - n.toNat = 0 := by omega
    simp [h2]
  · rw [if_neg hc]
    simp only [window, List.drop_take, List.drop_drop]
    congr 1
    omega

theorem window_take_neg (B : List Int) (v : View) (n : Int)
    (h : 0 ≤ v.len) (hn : n < 0) :
    window B (v.take n) = (window B v).drop (v.len.toNat - (-n).toNat) := by
  rw [View.take_eq v n h]
  by_cases hc : n < -v.len
  · rw [if_pos (Or.inl hc)]
    have h2 : v.len.toNat - (-n).toNat = 0 := by omega
    simp [h2]
  · rw [if_neg (by omega), if_neg (by omega)]
    simp only [window, List.drop_take, List.drop_drop]
    have h2 : v.len.toNat - (v.len.toNat - (-n).toNat) = (-n).toNat := by omega
    have h3 : v.off + (v.len.toNat - (-n).toNat) = v.off + (v.len + n).toNat := by omega
    rw [h2, h3]

theorem window_drop_neg (B : List Int) (v : View) (n : Int)
    (h : 0 ≤ v.len) (hn : n < 0) :
    window B (v.drop n) = (window B v).take (v.len.toNat - (-n).toNat) := by
  rw [View.drop_eq v n h, if_neg (by omega)]
  by_cases hc : n < -v.len
  · rw [if_pos hc]
    have h2 : v.len.toNat - (-n).toNat = 0 := by omega
    simp [window, h2]
  · rw [if_neg hc]
    simp only [window, List.take_take]
    congr 1
    omega

theorem take_subwindow (v : View) (n : Int) (h : 0 ≤ v.len) :
    subwindow (v.take n) v := by
  rw [View.take_eq v n h]
  unfold subwindow
  split_ifs <;> simp <;> omega

theorem drop_subwindow (v : View) (n : Int) (h : 0 ≤ v.len) :
    subwindow (v.drop n) v := by
  rw [View.drop_eq v n h]
  unfold subwindow
  split_ifs <;> simp <;> omega

/-- C1: for every view with non-negative length and every integer `n`,
`take`/`drop` are total and clamped: `take n` with `n ≥ 0` keeps the first
`min n len` elements and with `n < 0` the last `min |n| len`; `drop n`
removes the first `min n len` elements for `n ≥ 0` and the last
`min |n| len` for `n < 0`; both results are sub-windows of `v`
(never extended, never outside `[0, len]`, never an error). -/
theorem view_take_drop_clamped (B : List Int) (v : View) (n : Int)
    (h : 0 ≤ v.len) :
    (0 ≤ n →
       window B (v.take n) = (window B v).take n.toNat
     ∧ window B (v.drop n) = (window B v).drop n.toNat)
  ∧ (n < 0 →
       window B (v.take n) = (window B v).drop (v.len.toNat - (-n).toNat)
     ∧ window B (v.drop n) = (window B v).take (v.len.toNat - (-n).toNat))
  ∧ subwindow (v.take n) v ∧ subwindow (v.drop n) v :=
  ⟨fun hn => ⟨window_take_nonneg B v n h hn, window_drop_nonneg B v n h hn⟩,
   fun hn => ⟨window_take_neg B v n h hn, window_drop_neg B v n h hn⟩,
   take_subwindow v n h, drop_subwindow v n h⟩

/-- C1 witness: the clamped take/drop contract evaluated on the concrete
view of the 3-element buffer `1 2 3` at `n = -2`. -/
theorem view_take_drop_clamped_witness :
    ((0:Int) ≤ -2 →
       window [1, 2, 3] (View.take ⟨0, 3⟩ (-2)) = (window [1, 2, 3] ⟨0, 3⟩).take (-2:Int).toNat
     ∧ window [1, 2, 3] (View.drop ⟨0, 3⟩ (-2)) = (window [1, 2, 3] ⟨0, 3⟩).drop (-2:Int).toNat)
  ∧ ((-2:Int) < 0 →
       window [1, 2, 3] (View.take ⟨0, 3⟩ (-2)) =
         (window [1, 2, 3] ⟨0, 3⟩).drop ((3:Int).toNat - (-(-2):Int).toNat)
     ∧ window [1, 2, 3] (View.drop ⟨0, 3⟩ (-2)) =
         (window [1, 2, 3] ⟨0, 3⟩).take ((3:Int).toNat - (-(-2):Int).toNat))
  ∧ subwindow (View.take ⟨0, 3⟩ (-2)) ⟨0, 3⟩ ∧ subwindow (View.drop ⟨0, 3⟩ (-2)) ⟨0, 3⟩ :=
  view_take_drop_clamped [1, 2, 3] ⟨0, 3⟩ (-2) (by decide)

/-- C10: the const accessors `front()` and `back()` of a view of length 0
return the sentinel `(T)(-1)` without dereferencing the buffer; the
quantification over every buffer `B` expresses that no buffer content is
read. -/
theorem empty_view_front_back_sentinel (B : List Int) (v : View)
    (h : v.len = 0) : front B v = -1 ∧ back B v = -1 := by
  unfold front back
  rw [if_neg (by omega), if_neg (by omega)]
  exact ⟨rfl, rfl⟩

/-- C10 witness: the empty view at offset 5 of an arbitrary concrete buffer
fronts and backs to the sentinel. -/
theorem empty_view_front_back_sentinel_witness :
    front [7, 8, 9] ⟨5, 0⟩ = -1 ∧ back [7, 8, 9] ⟨5, 0⟩ = -1 :=
  empty_view_front_back_sentinel [7, 8, 9] ⟨5, 0⟩ (by decide)

theorem drop_one_pos (v : View) (h : 0 < v.len) :
    v.drop 1 = ⟨v.off + 1, v.len - 1⟩ := by
  rw [View.drop_eq v 1 (by omega)]
  rw [if_pos (by omega), if_neg (by omega)]
  simp [View.mk.injEq]

/-- C2 counterexample: the claim "if eating `s` from `v` fails the
caller-visible view recovered via `error_view` equals `v` before the call,
never a partially consumed view" is false at `v` = `"abc"`,
`s` = `"ac"`: the single character `a` is consumed before the mismatch, so
the error view is the partially consumed `"bc"` (offset 1, length 2), with
a different buffer pointer and different content from `v`.  (This is the
behaviour the repository's own `eat_test` block 5 asserts:
`error_view().equal("bc")`.) -/
theorem eat_string_partial_consumption :
    (eatStr [97, 98, 99] ⟨0, 3⟩ [97, 99]).isError
  ∧ (eatStr [97, 98, 99] ⟨0, 3⟩ [97, 99]).errorView ≠ (⟨0, 3⟩ : View)
  ∧ window [97, 98, 99] (eatStr [97, 98, 99] ⟨0, 3⟩ [97, 99]).errorView
      ≠ window [97, 98, 99] ⟨0, 3⟩ := by
  refine ⟨?_, ?_, ?_⟩ <;> decide

/-- C2 amended: `eat` of a single character is all-or-nothing — on failure
the error view recovers exactly the pre-call view; `eat` of a character
string is not: on failure the error view is the pre-call view advanced
past the successfully matched prefix (`matchedLen` characters), i.e. a
partially consumed view whenever the mismatch occurs after a partial
match. -/
theorem error_len (v : View) (h : 0 ≤ v.len) : (v.error).len = -v.len := by
  obtain ⟨o, l⟩ := v
  simp only [View.error, intAbs]
  split_ifs <;> simp_all <;> omega

theorem errorView_error (v : View) (h : 0 ≤ v.len) :
    (v.error).errorView = v := by
  obtain ⟨o, l⟩ := v
  simp only [View.error, View.errorView, intAbs, View.mk.injEq, true_and]
  split_ifs <;> simp_all <;> omega

theorem eatList_error_fixed (B : List Int) (v : View) (s : List Int)
    (h : v.len < 0) : eatList B v s = v := by
  cases s with
  | nil => rfl
  | cons a as =>
    unfold eatList
    rw [if_neg (by omega), if_pos h]

theorem eatList_failure (B : List Int) (s : List Int) : ∀ v : View,
    0 ≤ v.len → (eatList B v s).isError →
    (eatList B v s).errorView =
      ⟨v.off + matchedLen B v s, v.len - matchedLen B v s⟩ := by
  induction s with
  | nil =>
    intro v h he
    unfold eatList View.isError at he
    omega
  | cons t ts ih =>
    intro v h he
    by_cases h0 : v.len = 0
    · unfold eatList View.isError at he
      rw [if_pos h0] at he
      omega
    · have hpos : 0 < v.len := by omega
      unfold eatList
      unfold matchedLen
      rw [if_neg h0, if_neg (by omega), if_neg (by omega)]
      by_cases hm : readB B v.off = t
      · -- matched: recurse on the dropped view
        rw [if_pos hm]
        have hstep : eatChar B v t = v.drop 1 := by
          unfold eatChar
          rw [if_neg (by push_neg; exact ⟨h0, hm⟩)]
        have hdrop := drop_one_pos v hpos
        have he2 : (eatList B (eatChar B v t) ts).isError := by
          unfold eatList at he
          rw [if_neg h0, if_neg (by omega)] at he
          exact he
        rw [hstep] at he2 ⊢
        have := ih (v.drop 1) (by rw [hdrop]; simp only; omega) he2
        rw [this, hdrop]
        simp only [View.mk.injEq]
        constructor <;> omega
      · -- mismatch here: the error view is the current position
        rw [if_neg hm]
        have hstep : eatChar B v t = v.error := by
          unfold eatChar
          rw [if_pos (Or.inr hm)]
        rw [hstep, eatList_error_fixed B v.error ts (by rw [error_len v h]; omega)]
        rw [errorView_error v h]
        simp

/-- C2 amended: `eat` of a single character is all-or-nothing — on failure
the error view recovers exactly the pre-call view; `eat` of a character
string is not: on failure the error view is the pre-call view advanced
past the successfully matched prefix (`matchedLen` characters), i.e. a
partially consumed view whenever the mismatch occurs after a partial
match. -/
theorem eat_failure_error_view (B : List Int) (v : View) (t : Int)
    (s : List Int) (h : 0 ≤ v.len) :
    ((eatChar B v t).isError → (eatChar B v t).errorView = v)
  ∧ ((eatStr B v s).isError →
      (eatStr B v s).errorView =
        ⟨v.off + matchedLen B v s, v.len - matchedLen B v s⟩) := by
  constructor
  · intro he
    unfold eatChar at *
    by_cases hc : v.len = 0 ∨ readB B v.off ≠ t
    · rw [if_pos hc]
      exact errorView_error v h
    · rw [if_neg hc] at he
      rw [drop_one_pos v (by omega)] at he
      unfold View.isError at he
      simp only at he
      omega
  · intro he
    unfold eatStr at *
    rw [if_neg (by omega)] at he ⊢
    exact eatList_failure B s v h he

/-- C2 amended witness: the amended contract evaluated at the concrete
failure `"abc".eat("ac")`: the matched prefix has length 1 and the error
view is the original advanced by one character. -/
theorem eat_failure_error_view_witness :
    ((eatChar [97, 98, 99] ⟨0, 3⟩ 120).isError →
      (eatChar [97, 98, 99] ⟨0, 3⟩ 120).errorView = (⟨0, 3⟩ : View))
  ∧ ((eatStr [97, 98, 99] ⟨0, 3⟩ [97, 99]).isError →
      (eatStr [97, 98, 99] ⟨0, 3⟩ [97, 99]).errorView =
        ⟨0 + matchedLen [97, 98, 99] ⟨0, 3⟩ [97, 99],
         3 - matchedLen [97, 98, 99] ⟨0, 3⟩ [97, 99]⟩) :=
  eat_failure_error_view [97, 98, 99] ⟨0, 3⟩ 120 [97, 99] (by decide)

/-- C7: matching the `null` literal is whitespace- or end-of-input
terminated, not a prefix match: against `"nullfoo"` it fails, against
`"null foo"` it succeeds and leaves the view `" foo"` remaining; the same
termination rule holds for the `true` and `false` literals. -/
theorem literal_termination_null_true_false :
    -- "nullfoo" does not match null
    (is_null [110, 117, 108, 108, 102, 111, 111] ⟨0, 7⟩).2 = false
    -- "null foo" matches and the remaining view is " foo"
  ∧ is_null [110, 117, 108, 108, 32, 102, 111, 111] ⟨0, 8⟩ = (⟨4, 4⟩, true)
  ∧ window [110, 117, 108, 108, 32, 102, 111, 111] ⟨4, 4⟩ = [32, 102, 111, 111]
    -- "truefoo" / "true foo"
  ∧ (is_true [116, 114, 117, 101, 102, 111, 111] ⟨0, 7⟩).2 = false
  ∧ is_true [116, 114, 117, 101, 32, 102, 111, 111] ⟨0, 8⟩ = (⟨4, 4⟩, true)
    -- "falsefoo" / "false foo"
  ∧ (is_false [102, 97, 108, 115, 101, 102, 111, 111] ⟨0, 8⟩).2 = false
  ∧ is_false [102, 97, 108, 115, 101, 32, 102, 111, 111] ⟨0, 9⟩ = (⟨5, 4⟩, true) := by
  decide

theorem scanStr_quote : ∀ w : List Int, ∀ m, scanStr w = some m →
    w.get? m = some 34 := by
  intro w
  induction w using scanStr.induct with
  | case1 => intro m hm; simp [scanStr] at hm
  | case2 =>
    intro m hm
    unfold scanStr at hm
    rw [if_pos rfl] at hm
    cases hm
    rfl
  | case3 h hq =>
    intro m hm
    unfold scanStr at hm
    rw [if_neg hq] at hm
    cases hm
  | case4 z t2 =>
    intro m hm
    unfold scanStr at hm
    rw [if_pos rfl] at hm
    cases hm
    rfl
  | case5 t2 hb ih =>
    -- the escaped quote after the backslash is skipped, not a terminator
    intro m hm
    unfold scanStr at hm
    rw [if_neg hb, if_pos rfl, if_pos rfl] at hm
    obtain ⟨k, hk, rfl⟩ := Option.map_eq_some'.mp hm
    simpa using ih k hk
  | case6 z t2 hz hb ih =>
    intro m hm
    unfold scanStr at hm
    rw [if_neg hb, if_pos rfl, if_neg hz] at hm
    obtain ⟨k, hk, rfl⟩ := Option.map_eq_some'.mp hm
    simpa using ih k hk
  | case7 h z t2 hq hb ih =>
    intro m hm
    unfold scanStr at hm
    rw [if_neg hq, if_neg hb] at hm
    obtain ⟨k, hk, rfl⟩ := Option.map_eq_some'.mp hm
    simpa using ih k hk

theorem scanStr_head_ne (z : Int) (w : List Int) (hz : z ≠ 34) :
    ∀ k, scanStr (z :: w) = some k → 1 ≤ k := by
  intro k hk
  cases w with
  | nil =>
    unfold scanStr at hk
    rw [if_neg hz] at hk
    cases hk
  | cons a as =>
    unfold scanStr at hk
    rw [if_neg hz] at hk
    by_cases hb : z = 92
    · rw [if_pos hb] at hk
      by_cases ha : a = 34
      · rw [if_pos ha] at hk
        obtain ⟨j, _, rfl⟩ := Option.map_eq_some'.mp hk
        omega
      · rw [if_neg ha] at hk
        obtain ⟨j, _, rfl⟩ := Option.map_eq_some'.mp hk
        omega
    · rw [if_neg hb] at hk
      obtain ⟨j, _, rfl⟩ := Option.map_eq_some'.mp hk
      omega

/-- C8: `parse_string` scans for the closing quote treating the character
after a backslash as escaped — the scan never stops at the character
immediately following a backslash (part 2: a successful scan of
`'\' :: z :: w` never finds the closing quote at index 1, whatever `z`
is) — and on success returns the raw characters before the closing quote
verbatim, with no unescaping: the content is exactly `take m` of the raw
window, the character at `m` is the quote, and `v` is advanced to it. -/
theorem parse_string_escape_verbatim :
    (∀ (B : List Int) (v : View) (m : Nat), 0 ≤ v.len →
      scanStr (window B v) = some m →
        window B (parse_string B v).1 = (window B v).take m
      ∧ (window B v).get? m = some 34
      ∧ (parse_string B v).2 = ⟨v.off + m, v.len - m⟩)
  ∧ (∀ (z : Int) (w : List Int) (m : Nat),
      scanStr (92 :: z :: w) = some m → 2 ≤ m) := by
  constructor
  · intro B v m h hm
    unfold parse_string
    rw [hm]
    refine ⟨?_, scanStr_quote _ m hm, rfl⟩
    have := window_take_nonneg B v (m : Int) h (by omega)
    rw [this]
    congr 1 <;> omega
  · intro z w m hm
    unfold scanStr at hm
    rw [if_neg (by omega), if_pos rfl] at hm
    by_cases hz : z = 34
    · rw [if_pos hz] at hm
      obtain ⟨k, hk, rfl⟩ := Option.map_eq_some'.mp hm
      omega
    · rw [if_neg hz] at hm
      obtain ⟨k, hk, rfl⟩ := Option.map_eq_some'.mp hm
      have := scanStr_head_ne z w hz k hk
      omega

/-- C8 witness: the contract applied to the concrete input `f\"o"…`
(content `f`, escaped quote, `o`, closing quote): the scan succeeds at
index 4, the content is the raw prefix including the backslash escape,
and to the escape lemma at a concrete escaped quote. -/
theorem parse_string_escape_verbatim_witness :
    (window [102, 92, 34, 111, 34] (parse_string [102, 92, 34, 111, 34] ⟨0, 5⟩).1
       = (window [102, 92, 34, 111, 34] ⟨0, 5⟩).take 4
    ∧ (window [102, 92, 34, 111, 34] ⟨0, 5⟩).get? 4 = some 34
    ∧ (parse_string [102, 92, 34, 111, 34] ⟨0, 5⟩).2 = ⟨0 + 4, 5 - 4⟩)
  ∧ 2 ≤ 3 :=
  ⟨parse_string_escape_verbatim.1 [102, 92, 34, 111, 34] ⟨0, 5⟩ 4 (by decide)
     (by decide),
   parse_string_escape_verbatim.2 34 [111, 34] 3 (by decide)⟩

/-- C9: `parse_number` evaluated at the claim's inputs.  The failure cases
behave as claimed (`".24"` fails for lack of a leading digit; `"1x"` is
NaN with the view at `"x"`), but every successful parse is off by a factor
of 10: the two post-in/decrement exponent loops net `10^(e-1)` instead of
`10^e` (the first loop always exits with `e = -1`, so the second divides
once more).  `"1.25e2"` yields 12.5 — not the 125 the claim and the
file's own `parse_number_test` assert — `"-1.25E-2"` yields -0.00125 (not
-0.0125), and `"1 x"` yields 0.1 with remainder `" x"` (not 1). -/
theorem parse_number_exponent_offbyone :
    -- "1.25e2" : value is 12.5, not 125
    ((parse_number [49, 46, 50, 53, 101, 50] ⟨0, 6⟩).1 = some (125000, 4)
      ∧ d10eqv (125000, 4) (125, 1) ∧ ¬ d10eqv (125000, 4) (125, 0))
    -- "-1.25E-2" : value is -0.00125, not -0.0125
  ∧ (parse_number [45, 49, 46, 50, 53, 69, 45, 50] ⟨0, 8⟩ = (some (-1250, 6), ⟨8, 0⟩)
      ∧ d10eqv (-1250, 6) (-125, 5) ∧ ¬ d10eqv (-1250, 6) (-125, 4))
    -- "1 x" : value is 0.1 with remainder " x", not 1
  ∧ (parse_number [49, 32, 120] ⟨0, 3⟩ = (some (1, 1), ⟨1, 2⟩)
      ∧ ¬ d10eqv (1, 1) (1, 0))
    -- ".24" : fails, as claimed (no digit before the point)
  ∧ (parse_number [46, 50, 52] ⟨0, 3⟩).1 = none
    -- "1x" : NaN with the view at "x", as claimed
  ∧ parse_number [49, 120] ⟨0, 2⟩ = (none, ⟨1, 1⟩) := by
  decide

theorem subwindow_trans (a b d : View) (h1 : subwindow a b)
    (h2 : subwindow b d) : subwindow a d := by
  unfold subwindow at *
  omega

theorem window_length (B : List Int) (v : View)
    (hwf : v.off + v.len.toNat ≤ B.length) :
    (window B v).length = v.len.toNat := by
  simp only [window, List.length_take, List.length_drop]
  omega

/-- The scan only ever moves forward: its stop position is a suffix of the
input, and when it reports success at a nonempty rest the stop character
is the null terminator or the delimiter (only the outer loop stops without
error before the end). -/
theorem scan_rest (c l r e : Int) : ∀ (w : List Int) (st : ScanSt),
    ∃ k, k ≤ w.length ∧ (scan c l r e st w).1 = w.drop k
       ∧ ((scan c l r e st w).2 = true →
           ∀ h t, (scan c l r e st w).1 = h :: t → h = 0 ∨ h = c) := by
  intro w
  induction w with
  | nil =>
    intro st
    refine ⟨0, by simp, ?_, ?_⟩
    · cases st <;> simp [scan]
    · intro _ h t hht
      cases st <;> simp [scan] at hht
  | cons a t ih =>
    intro st
    -- each non-stopping branch consumes the head and continues in some
    -- state st2; this packages the inductive step
    have step : ∀ st2 : ScanSt, scan c l r e st (a :: t) = scan c l r e st2 t →
        ∃ k, k ≤ (a :: t).length ∧ (scan c l r e st (a :: t)).1 = (a :: t).drop k
           ∧ ((scan c l r e st (a :: t)).2 = true →
               ∀ h tt, (scan c l r e st (a :: t)).1 = h :: tt → h = 0 ∨ h = c) := by
      intro st2 heq
      obtain ⟨k, hk, hres, hok⟩ := ih st2
      refine ⟨k + 1, by simp; omega, ?_, ?_⟩
      · rw [heq]
        exact hres
      · intro hflag h tt hht
        rw [heq] at hflag hht
        exact hok hflag h tt hht
    cases st with
    | outer =>
      by_cases hs : a = 0 ∨ a = c
      · have heq : scan c l r e .outer (a :: t) = (a :: t, true) := by
          simp only [scan]
          rw [if_pos hs]
        refine ⟨0, by simp, by rw [heq]; rfl, ?_⟩
        rw [heq]
        intro _ h tt hht
        simp only [List.cons.injEq] at hht
        obtain ⟨rfl, -⟩ := hht
        exact hs
      · by_cases hl : a = l
        · exact step (.inner 1) (by simp only [scan]; rw [if_neg hs, if_pos hl])
        · exact step .outer (by simp only [scan]; rw [if_neg hs, if_neg hl])
    | inner lv =>
      by_cases h0 : lv = 0
      · exact step .outer (by simp only [scan]; rw [if_pos h0])
      · by_cases hz : a = 0
        · have heq : scan c l r e (.inner lv) (a :: t) = (a :: t, false) := by
            simp only [scan]
            rw [if_neg h0, if_pos hz]
          refine ⟨0, by simp, by rw [heq]; rfl, ?_⟩
          rw [heq]
          intro hflag
          simp at hflag
        · by_cases hr : a = r
          · exact step (.inner (lv - 1))
              (by simp only [scan]; rw [if_neg h0, if_neg hz, if_pos hr])
          · by_cases hl : a = l
            · exact step (.inner (lv + 1))
                (by simp only [scan]
                    rw [if_neg h0, if_neg hz, if_neg hr, if_pos hl])
            · by_cases he : a = e
              · exact step (.esc lv)
                  (by simp only [scan]
                      rw [if_neg h0, if_neg hz, if_neg hr, if_neg hl, if_pos he])
              · exact step (.inner lv)
                  (by simp only [scan]
                      rw [if_neg h0, if_neg hz, if_neg hr, if_neg hl, if_neg he])
    | esc lv =>
      exact step (.inner lv) rfl

/-- One successful `split` step: the cursor strictly shrinks, stays a
well-formed NUL-free sub-window, and the input window decomposes as
field ++ delimiter ++ cursor (delimiter found) or equals the field with an
empty cursor (input exhausted). -/
theorem splitV_step (B : List Int) (v : View) (c l r e : Int)
    (hpos : 0 < v.len) (hwf : v.off + v.len.toNat ≤ B.length)
    (hnz : (0:Int) ∉ window B v)
    (hsucc : 0 ≤ (splitV B v c l r e).1.len) :
    0 ≤ (splitV B v c l r e).2.len
  ∧ (splitV B v c l r e).2.len < v.len
  ∧ (splitV B v c l r e).2.off + (splitV B v c l r e).2.len.toNat ≤ B.length
  ∧ (0:Int) ∉ window B (splitV B v c l r e).2
  ∧ subwindow (splitV B v c l r e).1 v
  ∧ subwindow (splitV B v c l r e).2 v
  ∧ (window B v
       = window B (splitV B v c l r e).1 ++ c :: window B (splitV B v c l r e).2
     ∨ (window B v = window B (splitV B v c l r e).1
        ∧ (splitV B v c l r e).2.len = 0)) := by
  obtain ⟨k0, hk0, hrest, hstop⟩ := scan_rest c l r e (window B v) .outer
  have hwl : (window B v).length = v.len.toNat := window_length B v hwf
  by_cases hflag : (scan c l r e ScanSt.outer (window B v)).2 = true
  · have hk : (window B v).length
        - (scan c l r e ScanSt.outer (window B v)).1.length = k0 := by
      rw [hrest]
      simp only [List.length_drop]
      omega
    have hsplit : splitV B v c l r e
        = (v.take (k0 : Int), View.drop ⟨v.off + k0, v.len - k0⟩ 1) := by
      unfold splitV
      rw [if_pos hflag, hk]
    cases hcase : (scan c l r e ScanSt.outer (window B v)).1 with
    | nil =>
      -- the delimiter was never found: the field is the whole view and
      -- the cursor is the empty view at its end
      have hk0len : k0 = v.len.toNat := by
        have h1 := hrest
        rw [hcase] at h1
        have h2 := congrArg List.length h1
        simp only [List.length_nil, List.length_drop] at h2
        omega
      have hfield : (splitV B v c l r e).1 = ⟨v.off, v.len⟩ := by
        rw [hsplit, View.take_eq _ _ (le_of_lt hpos),
          if_neg (by omega), if_pos (by omega)]
        simp only [View.mk.injEq, true_and]
        omega
      have hcur : (splitV B v c l r e).2 = ⟨v.off + k0, 0⟩ := by
        rw [hsplit]
        have h1 : (⟨v.off + k0, v.len - k0⟩ : View) = ⟨v.off + k0, 0⟩ := by
          simp only [View.mk.injEq, true_and]
          omega

        rw [h1, View.drop_eq _ _ (by simp), if_pos (by simp), if_pos (by simp)]
        simp
      have hwfield : window B (splitV B v c l r e).1 = window B v := by
        rw [hfield]
      refine ⟨?_, ?_, ?_, ?_, ?_, ?_, ?_⟩
      · rw [hcur]
      · rw [hcur]
        exact hpos
      · rw [hcur]
        show v.off + k0 + (0:Int).toNat ≤ B.length
        omega
      · rw [hcur]
        simp [window]
      · rw [hfield]
        show v.off ≤ v.off ∧ v.off + v.len.toNat ≤ v.off + v.len.toNat ∧ 0 ≤ v.len
        omega
      · rw [hcur]
        show v.off ≤ v.off + k0 ∧ v.off + k0 + (0:Int).toNat ≤ v.off + v.len.toNat
          ∧ (0:Int) ≤ 0
        omega
      · right
        exact ⟨hwfield.symm, by rw [hcur]⟩
    | cons hch tt =>
      -- the scan stopped on the delimiter (NUL is excluded by hypothesis)
      have hd : (window B v).drop k0 = hch :: tt := hrest.symm.trans hcase
      have hchmem : hch ∈ window B v := by
        have h1 : hch ∈ (window B v).drop k0 := by
          rw [hd]
          exact List.mem_cons_self _ _
        exact List.mem_of_mem_drop h1
      have hchc : hch = c := by
        rcases hstop hflag hch tt hcase with h | h
        · exact absurd (h ▸ hchmem) hnz
        · exact h
      have hk0lt : k0 < v.len.toNat := by
        have h1 := congrArg List.length hd
        simp only [List.length_drop, List.length_cons] at h1
        omega
      have hfield : (splitV B v c l r e).1 = ⟨v.off, (k0 : Int)⟩ := by
        rw [hsplit, View.take_eq _ _ (le_of_lt hpos),
          if_neg (by omega), if_pos (by omega)]
      have hcur : (splitV B v c l r e).2 = ⟨v.off + k0 + 1, v.len - k0 - 1⟩ := by
        rw [hsplit, View.drop_eq ⟨v.off + k0, v.len - k0⟩ 1 (by simp; omega),
          if_pos (by omega), if_neg (by simp; omega)]
        simp only [View.mk.injEq, Int.toNat_one]
      have hwfield : window B (splitV B v c l r e).1 = (window B v).take k0 := by
        rw [hfield]
        simp only [window, List.take_take]
        congr 1
        omega
      have hwcur : window B (splitV B v c l r e).2 = tt := by
        have htt : tt = (window B v).drop (k0 + 1) := by
          have h1 : (window B v).drop (k0 + 1)
              = List.drop 1 ((window B v).drop k0) := by
            rw [List.drop_drop]
          rw [h1, hd]
          rfl
        rw [hcur, htt]
        simp only [window, List.drop_take, List.drop_drop]
        congr 1 <;> omega
      refine ⟨?_, ?_, ?_, ?_, ?_, ?_, ?_⟩
      · rw [hcur]
        show (0:Int) ≤ v.len - k0 - 1
        omega
      · rw [hcur]
        show v.len - k0 - 1 < v.len
        omega
      · rw [hcur]
        show v.off + k0 + 1 + (v.len - k0 - 1).toNat ≤ B.length
        omega
      · rw [hwcur]
        intro hm
        apply hnz
        apply List.mem_of_mem_drop (n := k0)
        rw [hd]
        exact List.mem_cons_of_mem _ hm
      · rw [hfield]
        show v.off ≤ v.off ∧ v.off + (k0:Int).toNat ≤ v.off + v.len.toNat
          ∧ (0:Int) ≤ k0
        omega
      · rw [hcur]
        show v.off ≤ v.off + k0 + 1
          ∧ v.off + k0 + 1 + (v.len - k0 - 1).toNat ≤ v.off + v.len.toNat
          ∧ (0:Int) ≤ v.len - k0 - 1
        omega
      · left
        conv_lhs => rw [← List.take_append_drop k0 (window B v)]
        rw [hd, hwfield, hwcur, hchc]
  · -- scan failure: the field is the error view, contradicting success
    exfalso
    have : splitV B v c l r e
        = (⟨v.off + ((window B v).length
            - (scan c l r e ScanSt.outer (window B v)).1.length), -1⟩, v) := by
      unfold splitV
      rw [if_neg hflag]
    rw [this] at hsucc
    exact absurd hsucc (by simp)

theorem splitRun_empty (B : List Int) (c l r e : Int) (fuel : Nat) (v : View)
    (h : v.len ≤ 0) : splitRun B c l r e fuel v = ([], true) := by
  cases fuel with
  | zero => rfl
  | succ n =>
    unfold splitRun
    rw [if_pos h]

theorem splitRun_nonnil (B : List Int) (c l r e : Int) (fuel : Nat) (v : View)
    (hfuel : 0 < fuel) (h : 0 < v.len)
    (hok : (splitRun B c l r e fuel v).2 = true) :
    (splitRun B c l r e fuel v).1 ≠ [] := by
  cases fuel with
  | zero => omega
  | succ n =>
    unfold splitRun at hok ⊢
    rw [if_neg (by omega)] at hok ⊢
    by_cases herr : (splitV B v c l r e).1.len < 0
    · rw [if_pos herr] at hok
      simp at hok
    · rw [if_neg herr]
      simp

/-- C3 amended: for every balanced (`splitRun` reports success), NUL-free,
well-formed input view, the fields obtained by repeatedly applying `split`
until the cursor is empty — the iteration `splitable` performs, counting
empty fields — concatenated with the delimiter reinserted between them,
reproduce the original window exactly, except that a delimiter consumed as
the very last input character is lost; and splitting only adjusts window
boundaries: every field is a sub-window of the input view (the buffer is
never written — all functions only read `B`).  (The `splitable` iterator
additionally stops at the first empty field, so its own yielded sequence
satisfies the invariant only when no field is empty — see the
counterexample.) -/
theorem split_rejoin_invariant (B : List Int) (c l r e : Int) : ∀ (fuel : Nat) (v : View),
    0 ≤ v.len → v.len.toNat ≤ fuel → v.off + v.len.toNat ≤ B.length →
    (0:Int) ∉ window B v → (splitRun B c l r e fuel v).2 = true →
    (joinWith [c] (((splitRun B c l r e fuel v).1).map (window B)) = window B v
     ∨ joinWith [c] (((splitRun B c l r e fuel v).1).map (window B)) ++ [c]
         = window B v)
  ∧ ∀ f ∈ (splitRun B c l r e fuel v).1, subwindow f v := by
  intro fuel
  induction fuel with
  | zero =>
    intro v h0 hf hwf hnz hok
    have hl : v.len = 0 := by omega
    constructor
    · left
      show joinWith [c] (([] : List View).map (window B)) = window B v
      simp [joinWith, window, hl]
    · intro f hf2
      simp [splitRun] at hf2
  | succ fuel ih =>
    intro v h0 hf hwf hnz hok
    by_cases hz : v.len ≤ 0
    · have hrun : splitRun B c l r e (fuel + 1) v = ([], true) :=
        splitRun_empty B c l r e (fuel + 1) v hz
      rw [hrun]
      constructor
      · left
        have hl : v.len = 0 := by omega
        simp [joinWith, window, hl]
      · intro f hf2
        simp at hf2
    · have hpos : 0 < v.len := by omega
      by_cases herr : (splitV B v c l r e).1.len < 0
      · exfalso
        unfold splitRun at hok
        rw [if_neg hz, if_pos herr] at hok
        simp at hok
      · have hsucc : 0 ≤ (splitV B v c l r e).1.len := by omega
        obtain ⟨h2nn, h2lt, h2wf, h2nz, hsub1, hsub2, hdec⟩ :=
          splitV_step B v c l r e hpos hwf hnz hsucc
        have hq : (splitRun B c l r e fuel (splitV B v c l r e).2).2 = true := by
          unfold splitRun at hok
          rw [if_neg hz, if_neg herr] at hok
          exact hok
        have ihq := ih (splitV B v c l r e).2 h2nn (by omega) h2wf h2nz hq
        have hfs : (splitRun B c l r e (fuel + 1) v).1
            = (splitV B v c l r e).1
              :: (splitRun B c l r e fuel (splitV B v c l r e).2).1 := by
          simp only [splitRun]
          rw [if_neg hz, if_neg herr]
        constructor
        · rw [hfs]
          rcases hdec with hdecL | ⟨hdecR, hlen0⟩
          · -- a delimiter was consumed: the cursor holds the rest
            cases hq1 : (splitRun B c l r e fuel (splitV B v c l r e).2).1 with
            | nil =>
              -- no further fields: the cursor must already be empty,
              -- so the consumed delimiter ended the input — it is lost
              have hc2 : (splitV B v c l r e).2.len ≤ 0 := by
                by_contra hc3
                exact splitRun_nonnil B c l r e fuel (splitV B v c l r e).2
                  (by omega) (by omega) hq hq1
              have hwc : window B (splitV B v c l r e).2 = [] := by
                have hl0 : (splitV B v c l r e).2.len = 0 := by omega
                simp [window, hl0]
              right
              rw [hdecL, hwc]
              simp [joinWith]
            | cons x xs =>
              have hjoin : joinWith [c]
                  (((splitV B v c l r e).1 :: x :: xs).map (window B))
                  = window B (splitV B v c l r e).1 ++ c
                    :: joinWith [c] ((x :: xs).map (window B)) := by
                simp [joinWith]
              rw [hjoin]
              rw [hq1] at ihq
              rcases ihq.1 with hL | hR
              · left
                rw [hL, hdecL]
              · right
                rw [hdecL]
                have : window B (splitV B v c l r e).1 ++ c
                      :: joinWith [c] ((x :: xs).map (window B)) ++ [c]
                    = window B (splitV B v c l r e).1 ++ c
                      :: (joinWith [c] ((x :: xs).map (window B)) ++ [c]) := by
                  simp
                rw [this, hR]
          · -- input exhausted with no delimiter: single field, exact rejoin
            have hrunq : (splitRun B c l r e fuel (splitV B v c l r e).2).1 = [] := by
              have := splitRun_empty B c l r e fuel (splitV B v c l r e).2 (by omega)
              rw [this]
            left
            rw [hrunq]
            simpa [joinWith] using hdecR.symm
        · intro f hf2
          rw [hfs] at hf2
          rcases List.mem_cons.mp hf2 with rfl | hmem
          · exact hsub1
          · exact subwindow_trans f _ v (ihq.2 f hmem) hsub2

/-- C3 counterexample: on the balanced, whitespace-free input `"a,,b"`
(codes `97 44 44 98`) split on `,`, the `splitable` iterator (modelled with
the cursor-advancing by-reference `split`, the variant most favourable to
the claim) yields only the field `"a"` — it stops at the first empty field
because its truthiness test is `len > 0` — so the yielded fields joined
with the delimiter give `"a"`, not the original content, even though every
step of the underlying split succeeds (balanced input). -/
theorem splitable_rejoin_fails_on_empty_field :
    ((fieldsBR [97, 44, 44, 98] 44 0 0 0 5
        (initBR [97, 44, 44, 98] ⟨0, 4⟩ 44 0 0 0)).map (window [97, 44, 44, 98]))
      = [[97]]
  ∧ (splitRun [97, 44, 44, 98] 44 0 0 0 4 ⟨0, 4⟩).2 = true
  ∧ joinWith [44] [[97]] ≠ window [97, 44, 44, 98] ⟨0, 4⟩ := by
  decide

/-- C3 amended witness: the rejoin invariant applied to the concrete input
`"a,b"` split on `,`: the two fields joined with the delimiter reproduce
the window, and each field is a sub-window. -/
theorem split_rejoin_invariant_witness :
    (joinWith [44] (((splitRun [97, 44, 98] 44 0 0 0 3 ⟨0, 3⟩).1).map
          (window [97, 44, 98]))
        = window [97, 44, 98] ⟨0, 3⟩
     ∨ joinWith [44] (((splitRun [97, 44, 98] 44 0 0 0 3 ⟨0, 3⟩).1).map
          (window [97, 44, 98])) ++ [44]
        = window [97, 44, 98] ⟨0, 3⟩)
  ∧ ∀ f ∈ (splitRun [97, 44, 98] 44 0 0 0 3 ⟨0, 3⟩).1, subwindow f ⟨0, 3⟩ :=
  split_rejoin_invariant [97, 44, 98] 44 0 0 0 3 ⟨0, 3⟩ (by decide) (by decide)
    (by decide) (by decide) (by decide)

/-- C4 counterexample: the claim says the escape neutralizes the next
character at every position including level 0, so in `"x\,y"` (codes
`120 92 44 121`) with delimiter `,`, nesting `{`/`}` and escape `\` the
escaped delimiter must not end the field.  In the code the outer loop has
no escape case: splitting stops at the delimiter, the field is `"x\"`
(offset 0, length 2) and the source view advances past the delimiter to
`"y"`. -/
theorem split_escape_ignored_at_level0 :
    (splitV [120, 92, 44, 121] ⟨0, 4⟩ 44 123 125 92).1 = ⟨0, 2⟩
  ∧ window [120, 92, 44, 121] (splitV [120, 92, 44, 121] ⟨0, 4⟩ 44 123 125 92).1
      = [120, 92]
  ∧ (splitV [120, 92, 44, 121] ⟨0, 4⟩ 44 123 125 92).2 = ⟨3, 1⟩ := by
  decide

/-- C4 amended: the escape rule applies only inside a nesting group.
While the level is nonzero, a scanned character equal to `e` (different
from `r`, `l` — checked first — and from the null terminator) makes the
scan skip `e` and the following character unconditionally, whatever that
character is (part 1).  At nesting level 0 the scanner gives `e` no
special meaning: it advances exactly one character (part 2), and a
delimiter immediately after `e` still ends the field (part 3). -/
theorem split_escape_scope :
    (∀ (c l r e lv z : Int) (w : List Int),
      lv ≠ 0 → e ≠ 0 → e ≠ r → e ≠ l →
      scan c l r e (.inner lv) (e :: z :: w) = scan c l r e (.inner lv) w)
  ∧ (∀ (c l r e : Int) (w : List Int),
      e ≠ 0 → e ≠ c → e ≠ l →
      scan c l r e .outer (e :: w) = scan c l r e .outer w)
  ∧ (∀ (c l r e : Int) (w : List Int),
      e ≠ 0 → e ≠ c → e ≠ l → c ≠ 0 →
      scan c l r e .outer (e :: c :: w) = (c :: w, true)) := by
  refine ⟨fun c l r e lv z w h0 he0 her hel => ?_,
          fun c l r e w he0 hec hel => ?_,
          fun c l r e w he0 hec hel hc0 => ?_⟩
  · simp [scan, h0, he0, her, hel]
  · simp [scan, he0, hec, hel]
  · simp [scan, he0, hec, hel]

/-- C4 amended witness: the three parts at concrete values — escape `\`
skipping an escaped character inside a `{`-group, and `\` at level 0
advancing one character so that the following `,` ends the field. -/
theorem split_escape_scope_witness :
    scan 44 123 125 92 (.inner 1) (92 :: 110 :: [97]) =
      scan 44 123 125 92 (.inner 1) [97]
  ∧ scan 44 123 125 92 .outer (92 :: [97]) = scan 44 123 125 92 .outer [97]
  ∧ scan 44 123 125 92 .outer (92 :: 44 :: [98]) = (44 :: [98], true) :=
  ⟨split_escape_scope.1 44 123 125 92 1 110 [97]
     (by decide) (by decide) (by decide) (by decide),
   split_escape_scope.2.1 44 123 125 92 [97] (by decide) (by decide) (by decide),
   split_escape_scope.2.2 44 123 125 92 [98]
     (by decide) (by decide) (by decide) (by decide)⟩

/-- C5: on the input `"a{,}b,c"` (codes `97 123 44 125 98 44 99`) with
delimiter `,` and nesting `{`/`}`, the iterator of `fms_parse_split.h`
produces the field `"a{,}b"` — the delimiter inside the nested pair does
not end the field — but, because that file's `split` takes the source
view **by value**, `operator++` never advances the cursor: the state is a
fixed point of `operator++`, the second claimed field `"c"` is never
produced and the iteration never terminates, contradicting the claim and
the file's own test (`splitable::test`, lines 156-165). -/
theorem splitable_byvalue_stuck_nested :
    window [97, 123, 44, 125, 98, 44, 99]
        (initBV [97, 123, 44, 125, 98, 44, 99] ⟨0, 7⟩ 44 123 125 0).f
      = [97, 123, 44, 125, 98]
  ∧ stepBV [97, 123, 44, 125, 98, 44, 99] 44 123 125 0
        (initBV [97, 123, 44, 125, 98, 44, 99] ⟨0, 7⟩ 44 123 125 0)
      = initBV [97, 123, 44, 125, 98, 44, 99] ⟨0, 7⟩ 44 123 125 0
  ∧ 0 < (initBV [97, 123, 44, 125, 98, 44, 99] ⟨0, 7⟩ 44 123 125 0).f.len
  ∧ ∀ n : Nat,
      (stepBV [97, 123, 44, 125, 98, 44, 99] 44 123 125 0)^[n]
          (initBV [97, 123, 44, 125, 98, 44, 99] ⟨0, 7⟩ 44 123 125 0)
        = initBV [97, 123, 44, 125, 98, 44, 99] ⟨0, 7⟩ 44 123 125 0 :=
  ⟨by decide, by decide, by decide,
   fun n => Function.iterate_fixed (by decide) n⟩

/-- C6: with the `split` of `fms_parse_split.h` (taken **by value**, as
that file declares it), `splitable::operator++` never advances the
internal cursor, so on `"a,b,c"` the iterator state is a fixed point of
`operator++` with a nonempty current field: repeated application never
reaches the terminal state and the cursor never becomes empty — the
iteration does not terminate, contradicting the claim (and the
terminating behaviour asserted by the file's own tests, which matches the
by-reference iterations of this header elsewhere in the repository). -/
theorem splitable_byvalue_never_terminates :
    stepBV [97, 44, 98, 44, 99] 44 0 0 0
        (initBV [97, 44, 98, 44, 99] ⟨0, 5⟩ 44 0 0 0)
      = initBV [97, 44, 98, 44, 99] ⟨0, 5⟩ 44 0 0 0
  ∧ 0 < (initBV [97, 44, 98, 44, 99] ⟨0, 5⟩ 44 0 0 0).f.len
  ∧ ∀ n : Nat,
      (stepBV [97, 44, 98, 44, 99] 44 0 0 0)^[n]
          (initBV [97, 44, 98, 44, 99] ⟨0, 5⟩ 44 0 0 0)
        = initBV [97, 44, 98, 44, 99] ⟨0, 5⟩ 44 0 0 0 :=
  ⟨by decide, by decide, fun n => Function.iterate_fixed (by decide) n⟩

end FmsParse
